import Mathlib

/-!
Shallow embedding of the racetime-app race/category view layer
(src/racetime/views/race.py and src/racetime/views/category.py), together
with theorems settling the specification claims about it.

Conventions:
  * Django querysets over stored rows are modelled as Lean lists.
  * `F('version') + 1` (a database-side increment applied at save time) is
    modelled by `dbSave`, which takes the stored row and the edited row and
    produces the new stored row with `version := stored.version + 1`.
  * The `with atomic():` block of a view is modelled by splitting the
    effects of the view into the list `txn` (inside the transaction) and
    the list `post` (after the transaction has committed).
  * Code of the repository that is not under src/ (models, mixins) is
    modelled from the spec; each such definition carries a doc comment
    starting with `Modelled from the spec:`.
-/

namespace Racetime

/-- The race state enumeration (`models.RaceStates`): `open`, `invitational`,
`pending`, `in_progress`, `finished`, `cancelled`.  `open` is a Lean keyword,
hence the trailing underscore. -/
inductive RaceStates where
  | open_
  | invitational
  | pending
  | in_progress
  | finished
  | cancelled
deriving DecidableEq, Repr

/-- The fields of a `models.Race` row that the claims touch. -/
structure Race where
  state : RaceStates
  opened_at : Nat
  version : Nat
  goal : String
  custom_goal : String
  info : String
  streaming_required : Bool
  chat_message_delay : Nat
deriving DecidableEq, Repr

/-! ## Category.current_races (src/racetime/views/category.py lines 39-62) -/

/-- The `state_sort` annotation of `Category.current_races`: a `Case`
expression mapping `open`/`invitational` to 1, `pending` to 2,
`in_progress` to 2, anything else to the default 0. -/
def state_sort (s : RaceStates) : Nat :=
  match s with
  | .open_ => 1
  | .invitational => 1
  | .pending => 2
  | .in_progress => 2
  | .finished => 0
  | .cancelled => 0

/-- The exclusion filter of `current_races`:
`.exclude(state__in=[finished, cancelled])`. -/
def not_done_filter (r : Race) : Bool :=
  !(r.state == RaceStates.finished || r.state == RaceStates.cancelled)

/-- The ordering used by `.order_by('state_sort', 'opened_at')`:
lexicographic on the `state_sort` annotation, then on `opened_at`
ascending. -/
def raceOrder (a b : Race) : Prop :=
  state_sort a.state < state_sort b.state ∨
    (state_sort a.state = state_sort b.state ∧ a.opened_at ≤ b.opened_at)

instance : DecidableRel raceOrder := by
  intro a b
  unfold raceOrder
  infer_instance

instance : IsTotal Race raceOrder := by
  constructor
  intro a b
  unfold raceOrder
  rcases Nat.lt_trichotomy (state_sort a.state) (state_sort b.state) with h | h | h
  · exact Or.inl (Or.inl h)
  · rcases Nat.le_total a.opened_at b.opened_at with h2 | h2
    · exact Or.inl (Or.inr ⟨h, h2⟩)
    · exact Or.inr (Or.inr ⟨h.symm, h2⟩)
  · exact Or.inr (Or.inl h)

instance : IsTrans Race raceOrder := by
  constructor
  intro a b c hab hbc
  unfold raceOrder at *
  rcases hab with h1 | ⟨h1, h1'⟩ <;> rcases hbc with h2 | ⟨h2, h2'⟩
  · exact Or.inl (Nat.lt_trans h1 h2)
  · exact Or.inl (h2 ▸ h1)
  · exact Or.inl (h1 ▸ h2)
  · exact Or.inr ⟨h1.trans h2, Nat.le_trans h1' h2'⟩

/-- The key a race is ordered by in `current_races`. -/
def raceKey (r : Race) : Nat × Nat :=
  (state_sort r.state, r.opened_at)

/-- `Category.current_races`: exclude finished/cancelled races, then order by
`(state_sort, opened_at)`.  The database sort is modelled by Mathlib's
(stable) insertion sort. -/
def current_races (races : List Race) : List Race :=
  List.insertionSort raceOrder (races.filter not_done_filter)

/-! ## EditRace (src/racetime/views/race.py lines 194-242) -/

/-- Modelled from the spec: `Race.is_done` is defined in the models module,
which is not under src/.  The spec states that `finished`/`cancelled` are
terminal and that EditRace's `test_func` blocks edits when the room is
"done", i.e. finished or cancelled. -/
def is_done (s : RaceStates) : Bool :=
  s == RaceStates.finished || s == RaceStates.cancelled

/-- `EditRace.test_func`: `super().test_func() and not self.get_object().is_done`.
The `super()` test (`CanMonitorRaceMixin.test_func`, not under src/) is
modelled from the spec as an abstract boolean `can_monitor`: whether the
requesting user can monitor the race. -/
def editRace_test_func (can_monitor : Bool) (race : Race) : Bool :=
  can_monitor && !(is_done race.state)

/-- The side effects performed by `EditRace.form_valid`. -/
inductive Effect where
  | save
  | update_entrant_ratings
  | add_message (body : String)
  | broadcast_data
deriving DecidableEq, Repr

/-- The outcome of `EditRace.form_valid`, split at the transaction boundary:
`txn` are the effects inside `with atomic():`, `post` the effects executed
after the transaction has committed. -/
structure EditOutcome where
  txn : List Effect
  post : List Effect
deriving DecidableEq, Repr

/-- Modelled from the spec: `Race.goal_str` (models module, not under src/).
The spec says a room has a goal-or-custom-goal, mutually exclusive; the
string shown is the custom goal when set, the category goal otherwise. -/
def goal_str (race : Race) : String :=
  if race.custom_goal ≠ "" then race.custom_goal else race.goal

/-- `EditRace.form_valid` (lines 203-239).  Inside `with atomic():` the race
row is saved (with the database-side version increment) and, if `goal` or
`custom_goal` is in `form.changed_data`, `update_entrant_ratings()` runs.
After the block, one system message is added per changed field, in source
order (goal, info, streaming_required, chat_message_delay); if no message
was added, `broadcast_data()` runs instead. -/
def editRace_form_valid (changed_data : List String) (user : String)
    (race : Race) : EditOutcome :=
  let txn : List Effect :=
    if "goal" ∈ changed_data ∨ "custom_goal" ∈ changed_data then
      [Effect.save, Effect.update_entrant_ratings]
    else
      [Effect.save]
  let goalMsgs : List Effect :=
    if "goal" ∈ changed_data ∨ "custom_goal" ∈ changed_data then
      [Effect.add_message (user ++ " set a new goal: " ++ goal_str race ++ ".")]
    else []
  let infoMsgs : List Effect :=
    if "info" ∈ changed_data then
      [Effect.add_message (user ++ " updated the race information.")]
    else []
  let streamingMsgs : List Effect :=
    if "streaming_required" ∈ changed_data then
      if race.streaming_required then
        [Effect.add_message "Streaming is now required for this race."]
      else
        [Effect.add_message "Streaming is now NOT required for this race."]
    else []
  let delayMsgs : List Effect :=
    if "chat_message_delay" ∈ changed_data then
      if race.chat_message_delay ≠ 0 then
        [Effect.add_message
          ("Chat delay is now " ++ toString race.chat_message_delay ++ " seconds.")]
      else
        [Effect.add_message "Chat delay has been removed."]
    else []
  let msgs := goalMsgs ++ infoMsgs ++ streamingMsgs ++ delayMsgs
  { txn := txn
    post := if msgs = [] then [Effect.broadcast_data] else msgs }

/-- The whole EditRace view: `UserPassesTestMixin` runs `test_func` before
dispatching; a failing test rejects the request before any mutation, so the
outcome is `none` and no effect runs. -/
def editRace (can_monitor : Bool) (changed_data : List String) (user : String)
    (race : Race) : Option EditOutcome :=
  if editRace_test_func can_monitor race then
    some (editRace_form_valid changed_data user race)
  else
    none

/-- `race.version = F('version') + 1` followed by `race.save()`: the store
applies the edited row but computes the new version from the *stored*
version, incrementing it by exactly one.  The save is unconditional —
there is no compare-and-swap and no conflict outcome. -/
def dbSave (stored edited : Race) : Race :=
  { edited with version := stored.version + 1 }

/-! ## RaceChatLog (src/racetime/views/race.py lines 85-107) -/

/-- The fields of a `models.Message` row that the claims touch.
`seq` is the per-room sequence position of §3 of the spec. -/
structure Message where
  seq : Nat
  posted_at : Nat
  user : String
  is_system : Bool
  message_plain : String
  deleted : Bool
deriving DecidableEq, Repr

/-- The ordering used by `.order_by('posted_at')`. -/
def posted_le (a b : Message) : Prop :=
  a.posted_at ≤ b.posted_at

instance : DecidableRel posted_le := by
  intro a b
  unfold posted_le
  infer_instance

instance : IsTotal Message posted_le :=
  ⟨fun a b => Nat.le_total a.posted_at b.posted_at⟩

instance : IsTrans Message posted_le :=
  ⟨fun _ _ _ h1 h2 => Nat.le_trans h1 h2⟩

/-- `RaceChatLog.get`, message selection:
`message_set.filter(deleted=False).order_by('posted_at')`. -/
def race_chat_log (messages : List Message) : List Message :=
  List.insertionSort posted_le (messages.filter (fun m => !m.deleted))

/-- One line of the chat-log export (lines 90-94). -/
def chat_log_line (m : Message) : String :=
  if m.is_system then
    "[" ++ toString m.posted_at ++ "] " ++ m.message_plain
  else
    "[" ++ toString m.posted_at ++ "] " ++ m.user ++ ": " ++ m.message_plain

/-- Modelled from the spec: the message-delete operation is not under src/.
The spec states deletion is a logical delete only: the message's `deleted`
flag is set, the row is never physically removed and sequence positions are
never changed or reused. -/
def mark_deleted (messages : List Message) (k : Nat) : List Message :=
  messages.map (fun m => if m.seq = k then { m with deleted := true } else m)

/-! ## CreateRace (src/racetime/views/race.py lines 156-191) -/

/-- Outcome of `CreateRace.form_valid`. -/
inductive CreateRaceResult where
  | form_error (msg : String)
  | created (state : RaceStates)
deriving DecidableEq, Repr

/-- `CreateRace.form_valid` (lines 160-186): a user who cannot moderate the
category and has an opened race whose state is not finished/cancelled gets a
form error and no race; otherwise a race is created, in state `invitational`
when the form's invitational flag is set, else in the default state `open`.
`opened_race_states` are the states of `self.user.opened_races`. -/
def createRace_form_valid (can_moderate : Bool) (invitational : Bool)
    (opened_race_states : List RaceStates) : CreateRaceResult :=
  if !can_moderate && opened_race_states.any
      (fun s => !(s == RaceStates.finished || s == RaceStates.cancelled)) then
    CreateRaceResult.form_error "You can only have one open race room at a time."
  else
    CreateRaceResult.created
      (if invitational then RaceStates.invitational else RaceStates.open_)

/-! ## ManageCategory (src/racetime/views/category.py lines 291-306) -/

/-- The fields of a `models.User` row that the category claims touch. -/
structure CatUser where
  id : Nat
  is_active : Bool
  is_staff : Bool
deriving DecidableEq, Repr

/-- The fields of a `models.Category` row that the permission claims touch. -/
structure CategoryRow where
  active : Bool
  owner : Nat
deriving DecidableEq, Repr

/-- Modelled from the spec: `Category.can_edit` (models module, not under
src/).  The spec's Action Authorization table gives owners edit power and
staff all of it and more, so an active user passes when they are staff or
the category owner. -/
def can_edit (category : CategoryRow) (user : CatUser) : Bool :=
  user.is_active && (user.is_staff || category.owner == user.id)

/-- `ManageCategory.test_func` (lines 299-306): active categories require
`can_edit`; inactive categories are only available to active staff. -/
def manageCategory_test_func (category : CategoryRow) (user : CatUser) : Bool :=
  if category.active then can_edit category user
  else user.is_active && user.is_staff

/-! ## AddModerator / RemoveModerator / TransferOwner
(src/racetime/views/category.py lines 309-449) -/

/-- A user as stored in a category's moderator set. -/
structure ModUser where
  id : Nat
  active : Bool
deriving DecidableEq, Repr

/-- A category together with its owner and raw moderator M2M set. -/
structure ModCategory where
  owner : Nat
  moderators : List ModUser
  max_moderators : Nat
deriving DecidableEq, Repr

/-- `ModPageMixin.moderators`: `category.moderators.filter(active=True)`
(the `order_by('name')` does not matter to the claims). -/
def active_moderators (cat : ModCategory) : List ModUser :=
  cat.moderators.filter (fun m => m.active)

/-- Outcome of a moderator-management form. -/
inductive ModResult where
  | already_moderator
  | too_many_moderators
  | not_a_moderator
  | ok
deriving DecidableEq, Repr

/-- `AddModerator.form_valid` (lines 338-369): reject when the selected user
is the owner or is in the active moderator list; reject when the active
moderator list is full; otherwise add the user to the M2M set (a Django
M2M `add` is a no-op when the row already exists). -/
def addModerator (cat : ModCategory) (user : ModUser) : ModCategory × ModResult :=
  if user.id == cat.owner || (active_moderators cat).any (fun m => m.id == user.id) then
    (cat, ModResult.already_moderator)
  else if cat.max_moderators ≤ (active_moderators cat).length then
    (cat, ModResult.too_many_moderators)
  else
    ({ cat with moderators :=
        if cat.moderators.any (fun m => m.id == user.id) then cat.moderators
        else cat.moderators ++ [user] },
     ModResult.ok)

/-- `RemoveModerator.form_valid` (lines 379-404). -/
def removeModerator (cat : ModCategory) (user : ModUser) : ModCategory × ModResult :=
  if !(active_moderators cat).any (fun m => m.id == user.id) then
    (cat, ModResult.not_a_moderator)
  else
    ({ cat with moderators := cat.moderators.filter (fun m => m.id != user.id) },
     ModResult.ok)

/-- `TransferOwner.form_valid` (lines 414-430): inside one `with atomic():`
block the owner is replaced and, if the new owner was in the raw moderator
set, they are removed from it.  The single Lean function is the atomic
transaction. -/
def transferOwner (cat : ModCategory) (user : ModUser) : ModCategory :=
  let cat1 := { cat with owner := user.id }
  if cat1.moderators.any (fun m => m.id == user.id) then
    { cat1 with moderators := cat1.moderators.filter (fun m => m.id != user.id) }
  else
    cat1

/-- The invariant of claim C10: the owner is never in the moderator set. -/
def ownerNotMod (cat : ModCategory) : Prop :=
  ∀ m ∈ cat.moderators, m.id ≠ cat.owner

/-! ## Helper lemmas -/

/-- A fixed sample race row used to instantiate theorems at concrete inputs. -/
def sampleRace : Race :=
  { state := RaceStates.open_
    opened_at := 0
    version := 5
    goal := "Beat the game"
    custom_goal := ""
    info := ""
    streaming_required := false
    chat_message_delay := 0 }

/-- Filtering commutes with `orderedInsert` when any two elements kept by the
filter are related by `r`: the inserted element lands in front of the kept
elements exactly when it is itself kept. -/
theorem filter_orderedInsert {α : Type} (r : α → α → Prop) [DecidableRel r]
    (p : α → Bool) (a : α) (l : List α)
    (H : ∀ b, p a = true → p b = true → r a b) :
    (l.orderedInsert r a).filter p =
      if p a then a :: l.filter p else l.filter p := by
  induction l with
  | nil =>
    by_cases h : p a <;> simp [List.orderedInsert, h]
  | cons b l ih =>
    by_cases hr : r a b
    · rw [List.orderedInsert, if_pos hr]
      by_cases h : p a <;> simp [List.filter_cons, h]
    · rw [List.orderedInsert, if_neg hr]
      by_cases hpa : p a
      · have hpb : p b = false := by
          by_contra hb
          exact hr (H b hpa (by simpa using hb))
        rw [if_pos hpa]
        simp [List.filter_cons, hpb, ih, hpa]
      · rw [if_neg hpa]
        by_cases hpb : p b <;> simp [List.filter_cons, hpb, ih, hpa]

/-- Stability of insertion sort, phrased through filters: the subsequence of
elements kept by `p` is untouched by sorting, whenever all kept elements are
mutually related by `r` (e.g. `p` selects one equivalence class of the sort
key). -/
theorem filter_insertionSort {α : Type} (r : α → α → Prop) [DecidableRel r]
    (p : α → Bool) (H : ∀ a b, p a = true → p b = true → r a b) :
    ∀ l : List α, (List.insertionSort r l).filter p = l.filter p := by
  intro l
  induction l with
  | nil => rfl
  | cons a l ih =>
    rw [List.insertionSort, filter_orderedInsert r p a _ (fun b => H a b)]
    rw [ih]
    by_cases h : p a <;> simp [List.filter_cons, h]

/-- The transaction part of `EditRace.form_valid`: the save, plus the rating
recalculation exactly when `goal` or `custom_goal` changed. -/
theorem editRace_txn_eq (changed_data : List String) (user : String)
    (race : Race) :
    (editRace_form_valid changed_data user race).txn =
      if "goal" ∈ changed_data ∨ "custom_goal" ∈ changed_data then
        [Effect.save, Effect.update_entrant_ratings]
      else
        [Effect.save] :=
  rfl

/-- Every post-transaction effect of `EditRace.form_valid` is a system
message or the broadcast; saves and rating updates happen only inside the
transaction. -/
theorem editRace_post_shape (changed_data : List String) (user : String)
    (race : Race) :
    ∀ e ∈ (editRace_form_valid changed_data user race).post,
      (∃ b, e = Effect.add_message b) ∨ e = Effect.broadcast_data := by
  intro e he
  cases e with
  | add_message b => exact Or.inl ⟨b, rfl⟩
  | broadcast_data => exact Or.inr rfl
  | save =>
    exfalso
    simp only [editRace_form_valid] at he
    split_ifs at he <;> simp_all
  | update_entrant_ratings =>
    exfalso
    simp only [editRace_form_valid] at he
    split_ifs at he <;> simp_all

/-! ## Claim theorems -/

/-- C1: a race in a terminal state (`finished` or `cancelled`) makes
`EditRace.test_func` fail, so the edit is rejected before any mutation
(outcome `none`); on a non-terminal race the edit goes through exactly when
the user can monitor the race. -/
theorem C1_edit_blocked_when_done (can_monitor : Bool)
    (changed_data : List String) (user : String) (race : Race) :
    ((race.state = RaceStates.finished ∨ race.state = RaceStates.cancelled) →
      editRace can_monitor changed_data user race = none) ∧
    (race.state ≠ RaceStates.finished → race.state ≠ RaceStates.cancelled →
      (editRace can_monitor changed_data user race =
        some (editRace_form_valid changed_data user race) ↔
          can_monitor = true)) := by
  constructor
  · rintro (h | h) <;> simp [editRace, editRace_test_func, is_done, h]
  · intro h1 h2
    have hnd : is_done race.state = false := by
      cases hs : race.state <;> simp_all [is_done]
    cases can_monitor <;> simp [editRace, editRace_test_func, hnd]

/-- Witness for C1: a concrete finished race is rejected outright. -/
theorem C1_witness :
    editRace true [] "mod" { sampleRace with state := RaceStates.finished } =
      none :=
  (C1_edit_blocked_when_done true [] "mod"
    { sampleRace with state := RaceStates.finished }).1 (Or.inl rfl)

/-- C2: `current_races` lists exactly the non-terminal races, sorted by
`raceOrder` (the lexicographic order on `(state_sort, opened_at)`, so
`open`/`invitational` — sort key 1 — come before `pending`/`in_progress` —
sort key 2 — and each group is ordered by opened time ascending); for every
non-terminal state the sort key is 1 or 2, so there is no further
non-terminal group; the order is total, and the sort is stable: the
subsequence of races with any fixed key is exactly as in the filtered
input. -/
theorem C2_current_races_ordering (races : List Race) (k : Nat × Nat) :
    (∀ r, r ∈ current_races races ↔
      r ∈ races ∧ not_done_filter r = true) ∧
    List.Sorted raceOrder (current_races races) ∧
    (∀ a b : Race, raceOrder a b ∨ raceOrder b a) ∧
    (∀ s : RaceStates, s ≠ RaceStates.finished → s ≠ RaceStates.cancelled →
      (state_sort s = 1 ↔ (s = RaceStates.open_ ∨ s = RaceStates.invitational)) ∧
      (state_sort s = 2 ↔ (s = RaceStates.pending ∨ s = RaceStates.in_progress)) ∧
      (state_sort s = 1 ∨ state_sort s = 2)) ∧
    (current_races races).filter (fun r => raceKey r == k) =
      (races.filter not_done_filter).filter (fun r => raceKey r == k) := by
  refine ⟨?_, ?_, ?_, ?_, ?_⟩
  · intro r
    rw [current_races,
      (List.perm_insertionSort raceOrder (races.filter not_done_filter)).mem_iff,
      List.mem_filter]
  · exact List.sorted_insertionSort raceOrder (races.filter not_done_filter)
  · exact fun a b => IsTotal.total a b
  · intro s h1 h2
    cases s <;> simp_all [state_sort]
  · rw [current_races]
    refine filter_insertionSort raceOrder (fun r => raceKey r == k) ?_ _
    intro a b ha hb
    have ha' : raceKey a = k := by simpa using ha
    have hb' : raceKey b = k := by simpa using hb
    have hk : raceKey a = raceKey b := ha'.trans hb'.symm
    have h1 : state_sort a.state = state_sort b.state :=
      congrArg Prod.fst hk
    have h2 : a.opened_at = b.opened_at := congrArg Prod.snd hk
    exact Or.inr ⟨h1, h2.le⟩

/-- Witness for C2: applying the group characterisation at the `open`
state. -/
theorem C2_witness :
    state_sort RaceStates.open_ = 1 ∨ state_sort RaceStates.open_ = 2 :=
  ((C2_current_races_ordering [] (0, 0)).2.2.2.1 RaceStates.open_
    (by decide) (by decide)).2.2

/-- C4: across the whole edit (transaction plus post-commit effects), the
rating recalculation `update_entrant_ratings` runs exactly once when `goal`
or `custom_goal` is among the changed fields, and never otherwise. -/
theorem C4_rating_trigger_iff_goal_changed (changed_data : List String)
    (user : String) (race : Race) :
    ((editRace_form_valid changed_data user race).txn ++
        (editRace_form_valid changed_data user race).post).count
      Effect.update_entrant_ratings =
      if "goal" ∈ changed_data ∨ "custom_goal" ∈ changed_data then 1 else 0 := by
  rw [List.count_append]
  have hpost : (editRace_form_valid changed_data user race).post.count
      Effect.update_entrant_ratings = 0 := by
    rw [List.count_eq_zero]
    intro hmem
    rcases editRace_post_shape changed_data user race _ hmem with ⟨b, hb⟩ | hb <;>
      simp_all
  rw [hpost, editRace_txn_eq]
  split_ifs <;> decide

/-- C5 counterexample: starting from a stored race at version 5, two
successive edit commits both succeed — there is no conflict outcome at all
in `dbSave` — reaching version 7 with the second edit's change applied.
This contradicts the claim that at most one of two concurrent commits from
version 5 succeeds (reaching 6) while the other gets a `VersionConflict`
and applies nothing. -/
theorem C5_counterexample :
    sampleRace.version = 5 ∧
    (dbSave sampleRace { sampleRace with info := "first edit" }).version = 6 ∧
    (dbSave (dbSave sampleRace { sampleRace with info := "first edit" })
        { sampleRace with info := "second edit" }).version = 7 ∧
    (dbSave (dbSave sampleRace { sampleRace with info := "first edit" })
        { sampleRace with info := "second edit" }).info = "second edit" := by
  refine ⟨rfl, rfl, rfl, rfl⟩

/-- C5 amended: `EditRace` uses an unconditional database-side increment
(`F('version') + 1`), not a compare-and-swap.  Every save succeeds, each
commit increments the stored version by exactly one (so increments are
never lost), and the later edit's field values overwrite the earlier
one's — last writer wins, with no `VersionConflict` ever raised. -/
theorem C5_amended_last_writer_wins (stored e1 e2 : Race) :
    (dbSave stored e1).version = stored.version + 1 ∧
    (dbSave (dbSave stored e1) e2).version = stored.version + 2 ∧
    dbSave (dbSave stored e1) e2 = { e2 with version := stored.version + 2 } := by
  refine ⟨rfl, rfl, rfl⟩

/-- C3 counterexample: for a concrete successful edit changing only `info`,
the atomic transaction contains the saved mutation but no system message —
the message is added only after the transaction has committed (it sits in
`post`, outside `txn`).  So the system message is not inserted atomically
with the state change, and a committed mutation without its system message
is possible (e.g. if execution stops between commit and message). -/
theorem C3_counterexample :
    (editRace_form_valid ["info"] "mod" sampleRace).txn = [Effect.save] ∧
    (editRace_form_valid ["info"] "mod" sampleRace).post =
      [Effect.add_message "mod updated the race information."] ∧
    (∀ b, Effect.add_message b ∉ (editRace_form_valid ["info"] "mod" sampleRace).txn) := by
  have h1 : (editRace_form_valid ["info"] "mod" sampleRace).txn = [Effect.save] := by
    rw [editRace_txn_eq, if_neg]
    decide
  refine ⟨h1, by decide, ?_⟩
  intro b
  rw [h1]
  simp

/-- C3 amended: only the save and (when the goal changed) the rating
recalculation are inside the atomic transaction; system messages are never
part of it and are executed only after it commits, so message insertion is
not atomic with the mutation. -/
theorem C3_amended_messages_after_commit (changed_data : List String)
    (user : String) (race : Race) :
    Effect.save ∈ (editRace_form_valid changed_data user race).txn ∧
    (∀ b, Effect.add_message b ∉ (editRace_form_valid changed_data user race).txn) ∧
    (Effect.update_entrant_ratings ∈ (editRace_form_valid changed_data user race).txn ↔
      ("goal" ∈ changed_data ∨ "custom_goal" ∈ changed_data)) ∧
    (∀ e ∈ (editRace_form_valid changed_data user race).post,
      e ≠ Effect.save ∧ e ≠ Effect.update_entrant_ratings) := by
  refine ⟨?_, ?_, ?_, ?_⟩
  · rw [editRace_txn_eq]
    split_ifs <;> simp
  · intro b
    rw [editRace_txn_eq]
    split_ifs <;> simp
  · rw [editRace_txn_eq]
    split_ifs with h <;> simp [h]
  · intro e he
    rcases editRace_post_shape changed_data user race e he with ⟨b, rfl⟩ | rfl <;>
      exact ⟨by simp, by simp⟩

/-- Witness for C3's amended theorem: concrete instance of the membership
facts for an `info`-only edit. -/
theorem C3_amended_witness :
    Effect.save ∈ (editRace_form_valid ["info"] "mod" sampleRace).txn :=
  (C3_amended_messages_after_commit ["info"] "mod" sampleRace).1

/-- C6: an edit whose only changed field is `streaming_required` performs
exactly one save (and the save increments the stored version by exactly
one), and appends exactly one system message: "Streaming is now required
for this race." when the flag is now true, "Streaming is now NOT required
for this race." when it is now false. -/
theorem C6_streaming_edit (user : String) (stored race : Race) :
    (editRace_form_valid ["streaming_required"] user race).txn = [Effect.save] ∧
    (dbSave stored race).version = stored.version + 1 ∧
    (race.streaming_required = true →
      (editRace_form_valid ["streaming_required"] user race).post =
        [Effect.add_message "Streaming is now required for this race."]) ∧
    (race.streaming_required = false →
      (editRace_form_valid ["streaming_required"] user race).post =
        [Effect.add_message "Streaming is now NOT required for this race."]) := by
  have hg : ¬("goal" ∈ (["streaming_required"] : List String) ∨
      "custom_goal" ∈ (["streaming_required"] : List String)) := by decide
  have hi : ¬("info" ∈ (["streaming_required"] : List String)) := by decide
  have hs : "streaming_required" ∈ (["streaming_required"] : List String) := by
    decide
  have hd : ¬("chat_message_delay" ∈ (["streaming_required"] : List String)) := by
    decide
  refine ⟨?_, rfl, ?_, ?_⟩
  · rw [editRace_txn_eq, if_neg hg]
  · intro h
    simp [editRace_form_valid, hg, hi, hs, hd, h]
  · intro h
    simp [editRace_form_valid, hg, hi, hs, hd, h]

/-- Witness for C6: the concrete flag-on edit appends exactly the expected
single message. -/
theorem C6_witness :
    (editRace_form_valid ["streaming_required"] "mod"
        { sampleRace with streaming_required := true }).post =
      [Effect.add_message "Streaming is now required for this race."] :=
  (C6_streaming_edit "mod" sampleRace
    { sampleRace with streaming_required := true }).2.2.1 rfl

/-- C7: the chat-log export selects exactly the messages whose deleted flag
is false, in ascending posting order; and marking a message deleted is a
logical delete only — it keeps the stored message set's length and leaves
every field except the deleted flag (in particular the sequence position)
of every message unchanged. -/
theorem C7_chat_log_logical_delete (messages : List Message) (k : Nat) :
    (∀ m, m ∈ race_chat_log messages ↔
      m ∈ messages ∧ m.deleted = false) ∧
    List.Sorted posted_le (race_chat_log messages) ∧
    (mark_deleted messages k).map
        (fun m => (m.seq, m.posted_at, m.user, m.is_system, m.message_plain)) =
      messages.map
        (fun m => (m.seq, m.posted_at, m.user, m.is_system, m.message_plain)) ∧
    (mark_deleted messages k).length = messages.length := by
  refine ⟨?_, ?_, ?_, ?_⟩
  · intro m
    rw [race_chat_log,
      (List.perm_insertionSort posted_le
        (messages.filter (fun m => !m.deleted))).mem_iff,
      List.mem_filter]
    simp
  · exact List.sorted_insertionSort posted_le _
  · rw [mark_deleted, List.map_map]
    refine List.map_congr_left ?_
    intro m _
    by_cases h : m.seq = k <;> simp [h]
  · rw [mark_deleted, List.length_map]

/-- C8: `ManageCategory.test_func` grants access exactly when the category
is active and the user passes `can_edit`, or the user is an active staff
member; in particular on a deactivated category only active staff pass,
regardless of ownership. -/
theorem C8_manage_category_access (category : CategoryRow) (user : CatUser) :
    (manageCategory_test_func category user = true ↔
      ((category.active = true ∧ can_edit category user = true) ∨
        (user.is_active = true ∧ user.is_staff = true))) ∧
    (category.active = false →
      (manageCategory_test_func category user = true ↔
        (user.is_active = true ∧ user.is_staff = true))) := by
  rcases category with ⟨cactive, owner⟩
  rcases user with ⟨uid, uactive, ustaff⟩
  cases cactive <;> cases uactive <;> cases ustaff <;>
    simp [manageCategory_test_func, can_edit]

/-- Witness for C8: an active staff member passes on a deactivated
category. -/
theorem C8_witness :
    manageCategory_test_func { active := false, owner := 1 }
      { id := 2, is_active := true, is_staff := true } = true :=
  ((C8_manage_category_access { active := false, owner := 1 }
    { id := 2, is_active := true, is_staff := true }).2 rfl).mpr ⟨rfl, rfl⟩

/-- C9: `CreateRace.form_valid` returns the one-open-race form error, and
creates nothing, exactly when the user cannot moderate the category and has
an opened race in a non-terminal state; a category moderator always gets a
race created (invitational when requested, else open). -/
theorem C9_one_open_race_limit (can_moderate invitational : Bool)
    (opened_race_states : List RaceStates) :
    (createRace_form_valid can_moderate invitational opened_race_states =
        CreateRaceResult.form_error
          "You can only have one open race room at a time." ↔
      (can_moderate = false ∧ ∃ s ∈ opened_race_states,
        s ≠ RaceStates.finished ∧ s ≠ RaceStates.cancelled)) ∧
    (can_moderate = true →
      createRace_form_valid can_moderate invitational opened_race_states =
        CreateRaceResult.created
          (if invitational then RaceStates.invitational
           else RaceStates.open_)) := by
  constructor
  · rw [createRace_form_valid]
    split_ifs with h
    · simp only [Bool.and_eq_true, Bool.not_eq_true', List.any_eq_true] at h
      obtain ⟨hcm, s, hs, hterm⟩ := h
      simp only [Bool.or_eq_false_iff, beq_eq_false_iff_ne] at hterm
      exact ⟨fun _ => ⟨hcm, s, hs, hterm.1, hterm.2⟩, fun _ => rfl⟩
    · simp only [Bool.and_eq_true, Bool.not_eq_true', List.any_eq_true,
        not_and, not_exists] at h
      constructor
      · intro hc
        exact absurd hc (by simp)
      · rintro ⟨hcm, s, hs, h1, h2⟩
        exact absurd (h hcm s hs) (by simp [h1, h2])
  · intro hm
    rw [createRace_form_valid, if_neg]
    simp [hm]

/-- Witness for C9: a non-moderator with one open race gets the form
error. -/
theorem C9_witness :
    createRace_form_valid false false [RaceStates.open_] =
      CreateRaceResult.form_error
        "You can only have one open race room at a time." :=
  (C9_one_open_race_limit false false [RaceStates.open_]).1.mpr
    ⟨rfl, ⟨RaceStates.open_, by decide, by decide, by decide⟩⟩

/-- C10: assuming the owner is not in the moderator set, every moderator
and ownership operation preserves that invariant; `AddModerator` rejects
the current owner and any active moderator without changing the category;
and `TransferOwner` installs the new owner and removes them from the
moderator set in its single atomic transaction. -/
theorem C10_owner_never_moderator (cat : ModCategory) (user : ModUser)
    (h : ownerNotMod cat) :
    ownerNotMod (addModerator cat user).1 ∧
    ownerNotMod (removeModerator cat user).1 ∧
    ownerNotMod (transferOwner cat user) ∧
    (user.id = cat.owner →
      addModerator cat user = (cat, ModResult.already_moderator)) ∧
    ((active_moderators cat).any (fun m => m.id == user.id) = true →
      addModerator cat user = (cat, ModResult.already_moderator)) ∧
    (transferOwner cat user).owner = user.id ∧
    (∀ m ∈ (transferOwner cat user).moderators, m.id ≠ user.id) := by
  refine ⟨?_, ?_, ?_, ?_, ?_, ?_, ?_⟩
  · rw [addModerator]
    split_ifs with h1 h2 h3
    · exact h
    · exact h
    · exact fun m hm => h m hm
    · intro m hm
      simp only [List.mem_append, List.mem_singleton] at hm
      rcases hm with hm | rfl
      · exact h m hm
      · simp only [Bool.or_eq_true, not_or, beq_iff_eq] at h1
        simpa using h1.1
  · rw [removeModerator]
    split_ifs with h1
    · exact h
    · intro m hm
      exact h m (List.mem_of_mem_filter hm)
  · rw [transferOwner]
    split_ifs with h1
    · intro m hm
      simp only [List.mem_filter, bne_iff_ne, ne_eq] at hm
      exact hm.2
    · intro m hm
      simp only [List.any_eq_true, beq_iff_eq, not_exists, not_and] at h1
      exact h1 m hm
  · intro heq
    rw [addModerator, if_pos]
    simp [heq]
  · intro hmem
    rw [addModerator, if_pos]
    simp [hmem]
  · rw [transferOwner]
    split_ifs <;> rfl
  · rw [transferOwner]
    split_ifs with h1
    · intro m hm
      simp only [List.mem_filter, bne_iff_ne, ne_eq] at hm
      exact hm.2
    · intro m hm
      simp only [List.any_eq_true, beq_iff_eq, not_exists, not_and] at h1
      exact h1 m hm

/-- Witness for C10: adding the current owner to a concrete category is
rejected without change. -/
theorem C10_witness :
    addModerator
        { owner := 1, moderators := [{ id := 2, active := true }],
          max_moderators := 5 }
        { id := 1, active := true } =
      ({ owner := 1, moderators := [{ id := 2, active := true }],
         max_moderators := 5 }, ModResult.already_moderator) :=
  (C10_owner_never_moderator
    { owner := 1, moderators := [{ id := 2, active := true }],
      max_moderators := 5 }
    { id := 1, active := true } (by unfold ownerNotMod; decide)).2.2.2.1 rfl

end Racetime
